import Mathlib

/-!
Verification model of the AG-UI Home Assistant integration
(custom_components/agui_agent), focused on the streaming client
(client.py) and the tool dispatcher (tool_executor.py).

Modelling conventions:
* Python JSON values (the results of json.loads) are the inductive `Json`.
* The standard-library JSON parser/serializer (json.loads / json.dumps) and
  the pydantic event validation are external collaborators; they enter the
  model as function parameters (`jsonLoads`, `jsonDumps`, `validate`).
* The Home Assistant tool backend (llm API async_call_tool) is the parameter
  `callTool`, whose outcome distinguishes the exception classes caught by
  execute_tool.
* Python dicts keyed by strings are association lists with the operations
  `dictGet` / `dictSet` / `dictRemove` (insertion order preserving,
  first-match lookup, matching CPython dict semantics on unique keys).
* Async code is modelled as pure sequential code: each `await` point is a
  plain function call, matching the strictly sequential control flow of
  AGUIClient.run / _process_event.
-/

namespace AguiAgent

/-- Python JSON values: the possible results of json.loads. -/
inductive Json where
  | null
  | bool (b : Bool)
  | num (n : Int)
  | str (s : String)
  | arr (elems : List Json)
  | obj (fields : List (String × Json))

/-- Result value of the Home Assistant tool backend: either already a
string, or a structured value that execute_tool serializes with
json.dumps. -/
inductive ToolResponse where
  | str (s : String)
  | structured (v : Json)

/-- Outcome of `await ctx.ha_llm_api.async_call_tool(tool_input)` as
distinguished by the except clauses of execute_tool:
a recognized tool-domain error (HomeAssistantError / vol.Invalid),
any other unexpected exception, or a successful response.
The string of the error constructors stands for repr(err). -/
inductive BackendOutcome where
  | domainError (err : String)
  | unexpectedError (err : String)
  | ok (response : ToolResponse)

/-- tool_executor.ToolCallResult (dataclass). -/
structure ToolCallResult where
  toolCallId : String
  toolName : String
  content : String
  status : String
deriving DecidableEq

/-- tool_executor.execute_tool: dispatches to the backend and normalizes
every outcome into a ToolCallResult, never raising. -/
def executeTool (callTool : String → Json → BackendOutcome)
    (jsonDumps : Json → String)
    (toolCallId toolName : String) (toolArgs : Json) : ToolCallResult :=
  match callTool toolName toolArgs with
  | .domainError err =>
      { toolCallId := toolCallId, toolName := toolName
        content := "Error: " ++ err, status := "error" }
  | .unexpectedError err =>
      { toolCallId := toolCallId, toolName := toolName
        content := "Error: " ++ err, status := "error" }
  | .ok (.str s) =>
      { toolCallId := toolCallId, toolName := toolName
        content := s, status := "success" }
  | .ok (.structured v) =>
      { toolCallId := toolCallId, toolName := toolName
        content := jsonDumps v, status := "success" }

/-- client.PendingToolCall (dataclass): a tool call in progress,
accumulating argument chunks. -/
structure PendingToolCall where
  toolCallId : String
  toolName : String
  argsChunks : List String
deriving DecidableEq

/-- client.PendingToolCall.get_args: join the accumulated chunks
(Python: the empty-separator join) and parse; the empty string or a
JSONDecodeError yields the empty mapping. -/
def PendingToolCall.getArgs (jsonLoads : String → Option Json)
    (p : PendingToolCall) : Json :=
  let argsStr := String.join p.argsChunks
  if argsStr = "" then Json.obj []
  else
    match jsonLoads argsStr with
    | some v => v
    | none => Json.obj []

/-- Python dict lookup (d.get(key)): first matching key. -/
def dictGet {α : Type} : List (String × α) → String → Option α
  | [], _ => none
  | (k, v) :: rest, key => if k = key then some v else dictGet rest key

/-- Python dict assignment (d[key] = val): replace in place if the key
exists, else append at the end (CPython insertion order). -/
def dictSet {α : Type} : List (String × α) → String → α → List (String × α)
  | [], key, val => [(key, val)]
  | (k, v) :: rest, key, val =>
      if k = key then (key, val) :: rest else (k, v) :: dictSet rest key val

/-- Python dict removal (d.pop(key, None) discarding the value): drop the
first entry with the key. -/
def dictRemove {α : Type} : List (String × α) → String → List (String × α)
  | [], _ => []
  | (k, v) :: rest, key => if k = key then rest else (k, v) :: dictRemove rest key

/-- The keys of the association list are pairwise distinct (always true of
a Python dict; the invariant our dict model maintains). -/
def noDupKeys {α : Type} (d : List (String × α)) : Prop :=
  (d.map Prod.fst).Nodup

/-- A conversation message dict ({role, content, id, tool_call_id}).
Absent keys are read with default "" throughout client.py, so they are
modelled as "". -/
structure Msg where
  role : String
  content : String
  id : String
  toolCallId : String
deriving DecidableEq

/-- AG-UI protocol events (ag_ui.core), restricted to the fields
client._process_event reads. -/
inductive Event where
  | runStarted
  | runFinished
  | runError (message : String)
  | textMessageStart (messageId : String)
  | textMessageContent (messageId : String) (delta : String)
  | textMessageEnd (messageId : String)
  | toolCallStart (toolCallId : String) (toolCallName : String)
  | toolCallArgs (toolCallId : String) (delta : String)
  | toolCallEnd (toolCallId : String)
  | toolCallResult (toolCallId : String) (content : String)
  | stateSnapshot
  | stateDelta
  | stepStarted
  | stepFinished
deriving DecidableEq

/-- The mutable accumulators threaded through AGUIClient._process_event:
response_chunks, tool_results, current_messages and the client's
_pending_tool_calls dict. -/
structure ProcState where
  responseChunks : List String
  toolResults : List ToolCallResult
  messages : List Msg
  pending : List (String × PendingToolCall)
deriving DecidableEq

/-- The role=tool message dict appended by _process_event on
TOOL_CALL_END: keys role, tool_call_id, content (no id key). -/
def toolMsgOf (r : ToolCallResult) : Msg :=
  { role := "tool", content := r.content, id := "", toolCallId := r.toolCallId }

/-- client.AGUIClient._process_event: one step of the event state machine.
Branches that only log (run lifecycle, text start/end, tool-call-result,
state and step events, unhandled kinds) leave the state unchanged. -/
def processEvent (jsonLoads : String → Option Json) (jsonDumps : Json → String)
    (callTool : String → Json → BackendOutcome)
    (s : ProcState) (e : Event) : ProcState :=
  match e with
  | .textMessageContent _ delta =>
      { s with responseChunks := s.responseChunks ++ [delta] }
  | .toolCallStart id name =>
      { s with pending := dictSet s.pending id ⟨id, name, []⟩ }
  | .toolCallArgs id delta =>
      match dictGet s.pending id with
      | none => s
      | some p =>
          { s with pending :=
              dictSet s.pending id ⟨p.toolCallId, p.toolName, p.argsChunks ++ [delta]⟩ }
  | .toolCallEnd id =>
      match dictGet s.pending id with
      | none => s
      | some p =>
          let result :=
            executeTool callTool jsonDumps p.toolCallId p.toolName
              (p.getArgs jsonLoads)
          { s with
              pending := dictRemove s.pending id
              toolResults := s.toolResults ++ [result]
              messages := s.messages ++ [toolMsgOf result] }
  | _ => s

/-- Draining the event stream: the `async for` loop of AGUIClient.run. -/
def processEvents (jsonLoads : String → Option Json) (jsonDumps : Json → String)
    (callTool : String → Json → BackendOutcome)
    (s : ProcState) (events : List Event) : ProcState :=
  events.foldl (processEvent jsonLoads jsonDumps callTool) s

/-- client.AGUIClientResult (dataclass). -/
structure AGUIClientResult where
  responseText : String
  messages : List Msg
  toolResults : List ToolCallResult
deriving DecidableEq

/-- client.AGUIClient.run: clear pending state, copy the caller's message
list, issue one streaming request (the RunAgentInput construction is folded
into the `fetch` collaborator, which receives the outbound message history)
and drain the resulting events, then assemble the result.
The source performs exactly one fetch per invocation. -/
def run (jsonLoads : String → Option Json) (jsonDumps : Json → String)
    (callTool : String → Json → BackendOutcome)
    (fetch : List Msg → List Event)
    (messages : List Msg) : AGUIClientResult :=
  let currentMessages := messages
  let st :=
    processEvents jsonLoads jsonDumps callTool
      { responseChunks := [], toolResults := []
        messages := currentMessages, pending := [] }
      (fetch currentMessages)
  { responseText := String.join st.responseChunks
    messages := st.messages
    toolResults := st.toolResults }

/-- client.AGUIClient._fetch_remote_events, HTTP-status branch: a non-200
status yields a single synthetic RUN_ERROR event carrying the status and
nothing else; a 200 status yields the parsed SSE stream. -/
def fetchRemoteEvents (status : Nat) (streamEvents : List Event) : List Event :=
  if status = 200 then streamEvents
  else [Event.runError ("Remote endpoint error: " ++ toString status)]

/-- client.AGUIClient._fetch_remote_events, aiohttp.ClientError branch: a
connection-level failure yields a single synthetic RUN_ERROR event carrying
repr(err). -/
def fetchRemoteEventsConnError (errRepr : String) : List Event :=
  [Event.runError ("Connection error: " ++ errRepr)]

/-- The outbound request headers built by _fetch_remote_events
(client.py lines 216-219): the literal dict in the source. -/
def requestHeaders : List (String × String) :=
  [("Content-Type", "application/json"), ("Accept", "text/event-stream")]

/-- The SSE accumulator of _parse_sse_stream: the current event-type label
(None initially; possibly the empty string after an empty label line) and
the data-line fragments. -/
structure SSEState where
  eventType : Option String
  dataLines : List String
deriving DecidableEq

/-- client.AGUIClient._parse_sse_event: parse the data as JSON (stdlib
parser as the `jsonLoads` collaborator), map the label to an event kind
(EventType enum construction as `eventTypeOf`; ValueError yields none), and
validate the payload into a typed event (the _EVENT_TYPE_MAP lookup plus
pydantic model_validate as `validate`; ValidationError yields none). -/
def parseSSEEvent {κ : Type} (jsonLoads : String → Option Json)
    (eventTypeOf : String → Option κ) (validate : κ → Json → Option Event)
    (eventTypeStr data : String) : Option Event :=
  match jsonLoads data with
  | none => none
  | some payload =>
      match eventTypeOf eventTypeStr with
      | none => none
      | some kind => validate kind payload

/-- The events emitted for one frame at its terminating blank line
(the body of the `elif line == ""` branch of _parse_sse_stream):
`if event_type and data_lines` requires a non-None, non-empty label and at
least one fragment; the fragments are joined with a newline; a frame whose
parse fails yields nothing. -/
def frameEvent {κ : Type} (jsonLoads : String → Option Json)
    (eventTypeOf : String → Option κ) (validate : κ → Json → Option Event)
    (st : SSEState) : List Event :=
  match st.eventType with
  | none => []
  | some et =>
      if et = "" then []
      else if st.dataLines = [] then []
      else
        match parseSSEEvent jsonLoads eventTypeOf validate et
            (String.intercalate "\n" st.dataLines) with
        | none => []
        | some e => [e]

/-- client.AGUIClient._parse_sse_stream, one line: `event:` lines set the
label (remainder stripped), `data:` lines append a stripped fragment, a
blank line emits the frame's events (if any) and always resets the
accumulator, and any other line is ignored. -/
def processLine {κ : Type} (jsonLoads : String → Option Json)
    (eventTypeOf : String → Option κ) (validate : κ → Json → Option Event)
    (st : SSEState) (line : String) : SSEState × List Event :=
  if line.startsWith "event:" then
    ({ st with eventType := some ((line.drop 6).trim) }, [])
  else if line.startsWith "data:" then
    ({ st with dataLines := st.dataLines ++ [(line.drop 5).trim] }, [])
  else if line = "" then
    ({ eventType := none, dataLines := [] },
     frameEvent jsonLoads eventTypeOf validate st)
  else (st, [])

/-- client.AGUIClient._parse_sse_stream: fold processLine over the decoded
lines, concatenating the emitted events. -/
def parseSSEStream {κ : Type} (jsonLoads : String → Option Json)
    (eventTypeOf : String → Option κ) (validate : κ → Json → Option Event)
    (st : SSEState) : List String → List Event
  | [] => []
  | line :: rest =>
      let step := processLine jsonLoads eventTypeOf validate st line
      step.2 ++ parseSSEStream jsonLoads eventTypeOf validate step.1 rest

/-- A store of Python list objects, to state aliasing facts about run:
each cell is one list object; references are indices. -/
structure Heap where
  cells : List (List Msg)

/-- Dereference a list object. -/
def Heap.read (h : Heap) (r : Nat) : List Msg :=
  (h.cells[r]?).getD []

/-- Replace the contents of a list object (the net effect of the appends
run performs on it). -/
def Heap.write (h : Heap) (r : Nat) (v : List Msg) : Heap :=
  ⟨h.cells.set r v⟩

/-- Allocate a fresh list object (Python list(xs) copy). -/
def Heap.alloc (h : Heap) (v : List Msg) : Heap × Nat :=
  (⟨h.cells ++ [v]⟩, h.cells.length)

/-- client.AGUIClient.run at the level of list objects:
`current_messages = list(messages)` allocates a fresh list initialized with
the elements of the caller's list; all tool-result appends during the event
drain go to that fresh list; the result returns the fresh list. -/
def runHeap (jsonLoads : String → Option Json) (jsonDumps : Json → String)
    (callTool : String → Json → BackendOutcome)
    (fetch : List Msg → List Event)
    (h : Heap) (messagesRef : Nat) : Heap × AGUIClientResult :=
  let copied := h.read messagesRef
  let alloced := h.alloc copied
  let st :=
    processEvents jsonLoads jsonDumps callTool
      { responseChunks := [], toolResults := []
        messages := copied, pending := [] }
      (fetch copied)
  let h2 := alloced.1.write alloced.2 st.messages
  (h2,
   { responseText := String.join st.responseChunks
     messages := h2.read alloced.2
     toolResults := st.toolResults })

/-! Concrete collaborator instances used by the closed evaluation
theorems: a JSON parser recognizing the payloads that occur in them, the
serializer and backend used by the repository's client tests. -/

/-- Concrete stand-in for json.loads in closed evaluations: recognizes the
literal null payload. -/
def wJsonLoads : String → Option Json :=
  fun s => if s = "null" then some Json.null else none

/-- Concrete stand-in for json.dumps in closed evaluations. -/
def wJsonDumps : Json → String := fun _ => "serialized"

/-- Concrete backend in closed evaluations: every call succeeds with the
string response used by the repository's mocked execute_tool. -/
def wCallTool : String → Json → BackendOutcome :=
  fun _ _ => BackendOutcome.ok (ToolResponse.str "result")

/-- A concrete backend whose calls fail with a domain error. -/
def wCallToolDomainError : String → Json → BackendOutcome :=
  fun _ _ => BackendOutcome.domainError "boom"

/-- A concrete event-kind lookup for closed evaluations (the kind type is
Unit; only the RUN_STARTED label is known). -/
def wEventTypeOf : String → Option Unit :=
  fun s => if s = "RUN_STARTED" then some () else none

/-- A concrete validator for closed evaluations. -/
def wValidate : Unit → Json → Option Event :=
  fun _ _ => some Event.runStarted

/-- A processor state with one tracked pending call whose accumulated
argument text does not parse as JSON. -/
def wStateBadArgs : ProcState :=
  { responseChunks := [], toolResults := [], messages := []
    pending := [("tc-1",
      { toolCallId := "tc-1", toolName := "SomeTool"
        argsChunks := ["notjson"] })] }

/-- A processor state with no pending calls. -/
def wStateEmpty : ProcState :=
  { responseChunks := [], toolResults := [], messages := [], pending := [] }

/-- A one-cell heap: the caller's message list object. -/
def wHeap : Heap :=
  ⟨[[{ role := "user", content := "Hi", id := "u1", toolCallId := "" }]]⟩

/-! Helper lemmas about string joining and the dict model. -/

/-- Joining a concatenation of fragment lists joins each part. -/
theorem strJoin_append (a b : List String) :
    String.join (a ++ b) = String.join a ++ String.join b := by
  apply String.ext
  simp [String.join_eq, String.data_append]

/-- Joining a single fragment is that fragment. -/
theorem strJoin_singleton (s : String) : String.join [s] = s := by
  apply String.ext
  simp [String.join_eq]

/-- A key that is absent from the key list is not found. -/
theorem dictGet_eq_none_of_not_mem {α : Type} (d : List (String × α)) (k : String)
    (h : k ∉ d.map Prod.fst) : dictGet d k = none := by
  induction d with
  | nil => rfl
  | cons hd tl ih =>
    obtain ⟨k', v'⟩ := hd
    simp only [List.map_cons, List.mem_cons] at h
    push_neg at h
    simp only [dictGet, if_neg (fun hk : k' = k => h.1 hk.symm)]
    exact ih h.2

/-- Lookup after assignment of the same key finds the assigned value. -/
theorem dictGet_dictSet_self {α : Type} (d : List (String × α)) (k : String) (v : α) :
    dictGet (dictSet d k v) k = some v := by
  induction d with
  | nil => simp [dictSet, dictGet]
  | cons hd tl ih =>
    obtain ⟨k', v'⟩ := hd
    by_cases hk : k' = k
    · simp [dictSet, hk, dictGet]
    · simp only [dictSet, if_neg hk, dictGet, if_neg hk]
      exact ih

/-- Assigning the value a key already holds is the identity. -/
theorem dictSet_self {α : Type} (d : List (String × α)) (k : String) (v : α)
    (h : dictGet d k = some v) : dictSet d k v = d := by
  induction d with
  | nil => simp [dictGet] at h
  | cons hd tl ih =>
    obtain ⟨k', v'⟩ := hd
    by_cases hk : k' = k
    · subst hk
      simp only [dictGet] at h
      rw [if_pos trivial] at h
      obtain rfl := Option.some.injEq _ _ |>.mp h
      simp [dictSet]
    · simp only [dictGet, if_neg hk] at h
      simp only [dictSet, if_neg hk]
      rw [ih h]

/-- Two successive assignments to the same key collapse to the second. -/
theorem dictSet_dictSet {α : Type} (d : List (String × α)) (k : String) (v v' : α) :
    dictSet (dictSet d k v) k v' = dictSet d k v' := by
  induction d with
  | nil => simp [dictSet]
  | cons hd tl ih =>
    obtain ⟨k', v''⟩ := hd
    by_cases hk : k' = k
    · simp [dictSet, hk]
    · simp only [dictSet, if_neg hk]
      rw [ih]

/-- Removing a key right after assigning it removes exactly the old
binding of that key. -/
theorem dictRemove_dictSet {α : Type} (d : List (String × α)) (k : String) (v : α) :
    dictRemove (dictSet d k v) k = dictRemove d k := by
  induction d with
  | nil => simp [dictSet, dictRemove]
  | cons hd tl ih =>
    obtain ⟨k', v'⟩ := hd
    by_cases hk : k' = k
    · simp [dictSet, hk, dictRemove]
    · simp only [dictSet, if_neg hk, dictRemove, if_neg hk]
      rw [ih]

/-- New keys introduced by an assignment are the assigned key. -/
theorem mem_keys_dictSet {α : Type} (d : List (String × α)) (k : String) (v : α)
    (a : String) (h : a ∈ (dictSet d k v).map Prod.fst) :
    a ∈ d.map Prod.fst ∨ a = k := by
  induction d with
  | nil =>
    simp only [dictSet, List.map_cons, List.map_nil, List.mem_singleton] at h
    exact Or.inr h
  | cons hd tl ih =>
    obtain ⟨k', v'⟩ := hd
    by_cases hk : k' = k
    · simp only [dictSet, if_pos hk, List.map_cons, List.mem_cons] at h
      rcases h with h | h
      · exact Or.inr h
      · exact Or.inl (List.mem_cons_of_mem _ h)
    · simp only [dictSet, if_neg hk, List.map_cons, List.mem_cons] at h
      rcases h with h | h
      · exact Or.inl (by simp [h])
      · rcases ih h with h' | h'
        · exact Or.inl (List.mem_cons_of_mem _ h')
        · exact Or.inr h'

/-- Dict assignment preserves key uniqueness. -/
theorem noDupKeys_dictSet {α : Type} (d : List (String × α)) (k : String) (v : α)
    (h : noDupKeys d) : noDupKeys (dictSet d k v) := by
  induction d with
  | nil => simp [dictSet, noDupKeys]
  | cons hd tl ih =>
    obtain ⟨k', v'⟩ := hd
    simp only [noDupKeys, List.map_cons, List.nodup_cons] at h
    by_cases hk : k' = k
    · subst hk
      have hset : dictSet ((k', v') :: tl) k' v = (k', v) :: tl := by simp [dictSet]
      rw [hset]
      simp only [noDupKeys, List.map_cons, List.nodup_cons]
      exact ⟨h.1, h.2⟩
    · have htl := ih h.2
      simp only [dictSet, if_neg hk, noDupKeys, List.map_cons, List.nodup_cons]
      refine ⟨?_, htl⟩
      intro hmem
      rcases mem_keys_dictSet tl k v k' hmem with h1 | h1
      · exact h.1 h1
      · exact hk h1

/-- The keys after a removal are a sublist of the keys before. -/
theorem keys_dictRemove_sublist {α : Type} (d : List (String × α)) (k : String) :
    List.Sublist ((dictRemove d k).map Prod.fst) (d.map Prod.fst) := by
  induction d with
  | nil => simp [dictRemove]
  | cons hd tl ih =>
    obtain ⟨k', v'⟩ := hd
    by_cases hk : k' = k
    · simp only [dictRemove, if_pos hk, List.map_cons]
      exact List.sublist_cons_self _ _
    · simp only [dictRemove, if_neg hk, List.map_cons]
      exact List.Sublist.cons₂ _ ih

/-- Dict removal preserves key uniqueness. -/
theorem noDupKeys_dictRemove {α : Type} (d : List (String × α)) (k : String)
    (h : noDupKeys d) : noDupKeys (dictRemove d k) :=
  List.Nodup.sublist (keys_dictRemove_sublist d k) h

/-- The dispatched result always carries the tool call id it was given. -/
theorem executeTool_toolCallId (ct : String → Json → BackendOutcome)
    (jd : Json → String) (id name : String) (args : Json) :
    (executeTool ct jd id name args).toolCallId = id := by
  unfold executeTool
  cases ct name args with
  | domainError e => rfl
  | unexpectedError e => rfl
  | ok r => cases r <;> rfl

/-- One event appends zero or one tool results, and appends exactly the
matching tool messages. -/
theorem processEvent_results_messages (jl : String → Option Json)
    (jd : Json → String) (ct : String → Json → BackendOutcome)
    (s : ProcState) (e : Event) :
    ∃ t, (processEvent jl jd ct s e).toolResults = s.toolResults ++ t ∧
      (processEvent jl jd ct s e).messages = s.messages ++ t.map toolMsgOf := by
  cases e with
  | toolCallArgs id delta =>
    cases hg : dictGet s.pending id with
    | none => exact ⟨[], by simp [processEvent, hg]⟩
    | some p => exact ⟨[], by simp [processEvent, hg]⟩
  | toolCallEnd id =>
    cases hg : dictGet s.pending id with
    | none => exact ⟨[], by simp [processEvent, hg]⟩
    | some p =>
      exact ⟨[executeTool ct jd p.toolCallId p.toolName (p.getArgs jl)],
        by simp [processEvent, hg]⟩
  | runStarted => exact ⟨[], by simp [processEvent]⟩
  | runFinished => exact ⟨[], by simp [processEvent]⟩
  | runError m => exact ⟨[], by simp [processEvent]⟩
  | textMessageStart mid => exact ⟨[], by simp [processEvent]⟩
  | textMessageContent mid delta => exact ⟨[], by simp [processEvent]⟩
  | textMessageEnd mid => exact ⟨[], by simp [processEvent]⟩
  | toolCallStart id name => exact ⟨[], by simp [processEvent]⟩
  | toolCallResult id content => exact ⟨[], by simp [processEvent]⟩
  | stateSnapshot => exact ⟨[], by simp [processEvent]⟩
  | stateDelta => exact ⟨[], by simp [processEvent]⟩
  | stepStarted => exact ⟨[], by simp [processEvent]⟩
  | stepFinished => exact ⟨[], by simp [processEvent]⟩

/-- Draining any event sequence appends tool results and exactly the
matching tool messages, in the same order. -/
theorem processEvents_results_messages (jl : String → Option Json)
    (jd : Json → String) (ct : String → Json → BackendOutcome)
    (evs : List Event) (s : ProcState) :
    ∃ ts, (processEvents jl jd ct s evs).toolResults = s.toolResults ++ ts ∧
      (processEvents jl jd ct s evs).messages = s.messages ++ ts.map toolMsgOf := by
  induction evs generalizing s with
  | nil => exact ⟨[], by simp [processEvents]⟩
  | cons e rest ih =>
    obtain ⟨t, ht1, ht2⟩ := processEvent_results_messages jl jd ct s e
    obtain ⟨ts, hts1, hts2⟩ := ih (processEvent jl jd ct s e)
    have hfold : processEvents jl jd ct s (e :: rest)
        = processEvents jl jd ct (processEvent jl jd ct s e) rest := rfl
    refine ⟨t ++ ts, ?_, ?_⟩
    · rw [hfold, hts1, ht1, List.append_assoc]
    · rw [hfold, hts2, ht2, List.map_append, List.append_assoc]

/-- Argument-delta events for an untracked id leave the state unchanged,
so draining them is the identity. -/
theorem processEvents_args_untracked (jl : String → Option Json)
    (jd : Json → String) (ct : String → Json → BackendOutcome)
    (s : ProcState) (id : String) (fragments : List String)
    (hg : dictGet s.pending id = none) :
    processEvents jl jd ct s (fragments.map (Event.toolCallArgs id)) = s := by
  induction fragments with
  | nil => rfl
  | cons f fs ih =>
    have hstep : processEvent jl jd ct s (Event.toolCallArgs id f) = s := by
      simp [processEvent, hg]
    have hfold : processEvents jl jd ct s ((f :: fs).map (Event.toolCallArgs id))
        = processEvents jl jd ct (processEvent jl jd ct s (Event.toolCallArgs id f))
            (fs.map (Event.toolCallArgs id)) := rfl
    rw [hfold, hstep, ih]

/-- Argument-delta events for a tracked call append their fragments, in
order, to the tracked call's chunk list and change nothing else. -/
theorem processEvents_args_accumulate (jl : String → Option Json)
    (jd : Json → String) (ct : String → Json → BackendOutcome)
    (s : ProcState) (id : String) (p : PendingToolCall) (fragments : List String)
    (hg : dictGet s.pending id = some p) :
    processEvents jl jd ct s (fragments.map (Event.toolCallArgs id))
      = { s with
          pending := dictSet s.pending id ⟨p.toolCallId, p.toolName, p.argsChunks ++ fragments⟩ } := by
  induction fragments generalizing s p with
  | nil =>
    have hp : (⟨p.toolCallId, p.toolName, p.argsChunks ++ []⟩ : PendingToolCall) = p := by
      simp
    rw [List.map_nil]
    rw [hp, dictSet_self s.pending id p hg]
    rfl
  | cons f fs ih =>
    have hstep : processEvent jl jd ct s (Event.toolCallArgs id f)
        = { s with
            pending := dictSet s.pending id ⟨p.toolCallId, p.toolName, p.argsChunks ++ [f]⟩ } := by
      simp [processEvent, hg]
    have hfold : processEvents jl jd ct s ((f :: fs).map (Event.toolCallArgs id))
        = processEvents jl jd ct (processEvent jl jd ct s (Event.toolCallArgs id f))
            (fs.map (Event.toolCallArgs id)) := rfl
    rw [hfold, hstep]
    rw [ih _ ⟨p.toolCallId, p.toolName, p.argsChunks ++ [f]⟩ (dictGet_dictSet_self _ _ _)]
    simp [dictSet_dictSet]

/-- A run whose stream is a single RUN_ERROR event returns the empty
result with the caller's messages. -/
theorem run_single_runError (jl : String → Option Json) (jd : Json → String)
    (ct : String → Json → BackendOutcome) (msgs : List Msg) (m : String) :
    run jl jd ct (fun _ => [Event.runError m]) msgs
      = { responseText := "", messages := msgs, toolResults := [] } := rfl

/-- With unique keys, a removed key is no longer found. -/
theorem dictGet_dictRemove_self {α : Type} (d : List (String × α)) (k : String)
    (h : noDupKeys d) : dictGet (dictRemove d k) k = none := by
  induction d with
  | nil => rfl
  | cons hd tl ih =>
    obtain ⟨k', v'⟩ := hd
    simp only [noDupKeys, List.map_cons, List.nodup_cons] at h
    by_cases hk : k' = k
    · subst hk
      simp only [dictRemove, if_pos rfl]
      exact dictGet_eq_none_of_not_mem tl k' h.1
    · simp only [dictRemove, if_neg hk, dictGet, if_neg hk]
      exact ih h.2

/-! Claim theorems. -/

/-- Claim C1 (evaluation of the code at the claim's scenario): against an
agent that answers the pass with exactly one new tool call and no
finishing text, AGUIClient.run performs its single request pass and
returns one ToolCallResult — not the ten the claim's request loop would
produce, since run contains no request loop at all. -/
theorem c1_code_single_pass :
    (run wJsonLoads wJsonDumps wCallTool
      (fun _ => [Event.toolCallStart "tc-1" "SomeTool", Event.toolCallEnd "tc-1"])
      []).toolResults.length = 1 := by
  rfl

/-- Claim C2 (evaluation of the code's header dict): the headers built by
_fetch_remote_events carry Content-Type: application/json and
Accept: text/event-stream and never an Authorization entry — the client
has no bearer credential to configure, although its caller and tests
supply one. -/
theorem c2_code_headers_no_authorization :
    dictGet requestHeaders "Content-Type" = some "application/json" ∧
    dictGet requestHeaders "Accept" = some "text/event-stream" ∧
    dictGet requestHeaders "Authorization" = none := by
  refine ⟨rfl, ?_, ?_⟩ <;> rfl

/-- Claim C3: a pass whose remote reply has a non-success status, or whose
connection fails, is converted into a single synthetic run-error event;
run then returns a well-formed result with empty response text, no tool
results and the caller's messages untouched, raising nothing. -/
theorem c3_transport_error_empty_result (jl : String → Option Json)
    (jd : Json → String) (ct : String → Json → BackendOutcome)
    (msgs : List Msg) (status : Nat) (evs : List Event) (err : String)
    (hstatus : status ≠ 200) :
    fetchRemoteEvents status evs
        = [Event.runError ("Remote endpoint error: " ++ toString status)] ∧
    run jl jd ct (fun _ => fetchRemoteEvents status evs) msgs
        = { responseText := "", messages := msgs, toolResults := [] } ∧
    run jl jd ct (fun _ => fetchRemoteEventsConnError err) msgs
        = { responseText := "", messages := msgs, toolResults := [] } := by
  have hf : fetchRemoteEvents status evs
      = [Event.runError ("Remote endpoint error: " ++ toString status)] := by
    unfold fetchRemoteEvents
    rw [if_neg hstatus]
  have hfun : (fun _ : List Msg => fetchRemoteEvents status evs)
      = fun _ => [Event.runError ("Remote endpoint error: " ++ toString status)] :=
    funext fun _ => hf
  refine ⟨hf, ?_, ?_⟩
  · rw [hfun]
    exact run_single_runError jl jd ct msgs _
  · exact run_single_runError jl jd ct msgs _

/-- Witness for C3 at status 500 with an empty caller history. -/
theorem c3_transport_error_witness :
    run wJsonLoads wJsonDumps wCallTool (fun _ => fetchRemoteEvents 500 []) []
      = { responseText := "", messages := [], toolResults := [] } :=
  (c3_transport_error_empty_result wJsonLoads wJsonDumps wCallTool
    [] 500 [] "refused" (by decide)).2.1

/-- Claim C4: execute_tool never raises; a recognized tool-domain error or
any unexpected backend failure becomes a status=error result whose content
embeds the original error, a string response passes through verbatim with
status=success, and a non-string response is serialized with json.dumps. -/
theorem c4_execute_tool_normalizes (ct : String → Json → BackendOutcome)
    (jd : Json → String) (id name : String) (args : Json) :
    (∀ e, ct name args = BackendOutcome.domainError e →
      executeTool ct jd id name args
        = { toolCallId := id, toolName := name
            content := "Error: " ++ e, status := "error" }) ∧
    (∀ e, ct name args = BackendOutcome.unexpectedError e →
      executeTool ct jd id name args
        = { toolCallId := id, toolName := name
            content := "Error: " ++ e, status := "error" }) ∧
    (∀ s, ct name args = BackendOutcome.ok (ToolResponse.str s) →
      executeTool ct jd id name args
        = { toolCallId := id, toolName := name
            content := s, status := "success" }) ∧
    (∀ v, ct name args = BackendOutcome.ok (ToolResponse.structured v) →
      executeTool ct jd id name args
        = { toolCallId := id, toolName := name
            content := jd v, status := "success" }) := by
  refine ⟨fun e he => ?_, fun e he => ?_, fun s hs => ?_, fun v hv => ?_⟩
  · unfold executeTool; rw [he]
  · unfold executeTool; rw [he]
  · unfold executeTool; rw [hs]
  · unfold executeTool; rw [hv]

/-- Witness for C4 on a backend that fails with a domain error. -/
theorem c4_execute_tool_witness :
    executeTool wCallToolDomainError wJsonDumps "tc" "t" Json.null
      = { toolCallId := "tc", toolName := "t"
          content := "Error: boom", status := "error" } :=
  (c4_execute_tool_normalizes wCallToolDomainError wJsonDumps "tc" "t" Json.null).1
    "boom" rfl

/-- Claim C5: at a frame's terminating blank line, a typed event is
emitted exactly when an event-type label and at least one data fragment
are present, the newline-join of the fragments parses as JSON, the label
maps to a known event kind and the payload validates against it; any
failing frame is dropped with nothing emitted, the accumulator is reset
after every blank line, and the stream continues from the reset state. -/
theorem c5_frame_decoder_emission {κ : Type} (jl : String → Option Json)
    (eto : String → Option κ) (validate : κ → Json → Option Event)
    (st : SSEState) :
    (processLine jl eto validate st "").1 = ⟨none, []⟩ ∧
    (∀ e : Event, (processLine jl eto validate st "").2 = [e] ↔
      ∃ et, st.eventType = some et ∧ et ≠ "" ∧ st.dataLines ≠ [] ∧
        ∃ payload kind,
          jl (String.intercalate "\n" st.dataLines) = some payload ∧
          eto et = some kind ∧ validate kind payload = some e) ∧
    (∀ lines, parseSSEStream jl eto validate st ("" :: lines) =
      (processLine jl eto validate st "").2
        ++ parseSSEStream jl eto validate ⟨none, []⟩ lines) := by
  have hline : processLine jl eto validate st ""
      = (⟨none, []⟩, frameEvent jl eto validate st) := rfl
  refine ⟨by rw [hline], ?_, fun lines => rfl⟩
  intro e
  rw [hline]
  unfold frameEvent parseSSEEvent
  cases hev : st.eventType with
  | none => simp
  | some et =>
    by_cases het : et = ""
    · simp [het]
    · by_cases hdl : st.dataLines = []
      · simp [het, hdl]
      · cases hj : jl (String.intercalate "\n" st.dataLines) with
        | none => simp [het, hdl, hj]
        | some payload =>
          cases hk : eto et with
          | none => simp [het, hdl, hj, hk]
          | some kind =>
            cases hv : validate kind payload with
            | none => simp [het, hdl, hj, hk, hv]
            | some e' => simp [het, hdl, hj, hk, hv, eq_comm]

/-- Witness for C5: a well-formed frame with label RUN_STARTED and one
data fragment emits the typed event. -/
theorem c5_frame_decoder_witness :
    (processLine wJsonLoads wEventTypeOf wValidate
      ⟨some "RUN_STARTED", ["null"]⟩ "").2 = [Event.runStarted] :=
  ((c5_frame_decoder_emission wJsonLoads wEventTypeOf wValidate
      ⟨some "RUN_STARTED", ["null"]⟩).2.1 Event.runStarted).mpr
    ⟨"RUN_STARTED", rfl, by decide, by decide, Json.null, (), rfl, rfl, rfl⟩

/-- Claim C6: a tool-call-args or tool-call-end event whose id has no
live PendingToolCall is a no-op — the whole processor state (history,
response buffer, result list, pending map) is unchanged and no dispatch
occurs — and every event preserves the at-most-one-pending-call-per-id
invariant (key uniqueness of the pending dict). -/
theorem c6_unknown_id_noop_and_unique (jl : String → Option Json)
    (jd : Json → String) (ct : String → Json → BackendOutcome)
    (s : ProcState) (id delta : String)
    (h : dictGet s.pending id = none) :
    processEvent jl jd ct s (Event.toolCallArgs id delta) = s ∧
    processEvent jl jd ct s (Event.toolCallEnd id) = s ∧
    ∀ (s' : ProcState) (e : Event), noDupKeys s'.pending →
      noDupKeys (processEvent jl jd ct s' e).pending := by
  refine ⟨by simp [processEvent, h], by simp [processEvent, h], ?_⟩
  intro s' e hnd
  cases e with
  | toolCallStart id' name' => exact noDupKeys_dictSet _ _ _ hnd
  | toolCallArgs id' d' =>
    cases hg : dictGet s'.pending id' with
    | none => simpa [processEvent, hg] using hnd
    | some p =>
      have hp : processEvent jl jd ct s' (Event.toolCallArgs id' d')
          = { s' with
              pending := dictSet s'.pending id' ⟨p.toolCallId, p.toolName, p.argsChunks ++ [d']⟩ } := by
        simp [processEvent, hg]
      rw [hp]
      exact noDupKeys_dictSet _ _ _ hnd
  | toolCallEnd id' =>
    cases hg : dictGet s'.pending id' with
    | none => simpa [processEvent, hg] using hnd
    | some p =>
      have hp : (processEvent jl jd ct s' (Event.toolCallEnd id')).pending
          = dictRemove s'.pending id' := by
        simp [processEvent, hg]
      rw [hp]
      exact noDupKeys_dictRemove _ _ hnd
  | runStarted => exact hnd
  | runFinished => exact hnd
  | runError m => exact hnd
  | textMessageStart mid => exact hnd
  | textMessageContent mid d' => exact hnd
  | textMessageEnd mid => exact hnd
  | toolCallResult id' c' => exact hnd
  | stateSnapshot => exact hnd
  | stateDelta => exact hnd
  | stepStarted => exact hnd
  | stepFinished => exact hnd

/-- Witness for C6 on a state with no pending calls. -/
theorem c6_unknown_id_witness :
    processEvent wJsonLoads wJsonDumps wCallTool wStateEmpty
        (Event.toolCallArgs "x" "d") = wStateEmpty ∧
    processEvent wJsonLoads wJsonDumps wCallTool wStateEmpty
        (Event.toolCallEnd "x") = wStateEmpty :=
  ⟨(c6_unknown_id_noop_and_unique wJsonLoads wJsonDumps wCallTool
      wStateEmpty "x" "d" rfl).1,
   (c6_unknown_id_noop_and_unique wJsonLoads wJsonDumps wCallTool
      wStateEmpty "x" "d" rfl).2.1⟩

/-- Claim C7: the argument payload of a tool call delivered as any number
of args-delta fragments resolves to the same dispatch as the same
concatenated payload delivered as a single fragment: the processor state
after start..deltas..end is identical for every fragmentation with the
same join. -/
theorem c7_fragmentation_invariance (jl : String → Option Json)
    (jd : Json → String) (ct : String → Json → BackendOutcome)
    (s : ProcState) (id : String) (fragments : List String) :
    processEvents jl jd ct s
        (fragments.map (Event.toolCallArgs id) ++ [Event.toolCallEnd id])
      = processEvents jl jd ct s
        [Event.toolCallArgs id (String.join fragments), Event.toolCallEnd id] := by
  have hsplit : ∀ (s₀ : ProcState) (pre : List Event),
      processEvents jl jd ct s₀ (pre ++ [Event.toolCallEnd id])
        = processEvent jl jd ct (processEvents jl jd ct s₀ pre)
            (Event.toolCallEnd id) := by
    intro s₀ pre
    simp [processEvents, List.foldl_append]
  cases hg : dictGet s.pending id with
  | none =>
    rw [hsplit s (fragments.map (Event.toolCallArgs id))]
    rw [processEvents_args_untracked jl jd ct s id fragments hg]
    have h1 : processEvents jl jd ct s
        [Event.toolCallArgs id (String.join fragments), Event.toolCallEnd id]
        = processEvent jl jd ct
            (processEvent jl jd ct s (Event.toolCallArgs id (String.join fragments)))
            (Event.toolCallEnd id) := rfl
    rw [h1]
    have h2 : processEvent jl jd ct s (Event.toolCallArgs id (String.join fragments)) = s := by
      simp [processEvent, hg]
    rw [h2]
  | some p =>
    rw [hsplit s (fragments.map (Event.toolCallArgs id))]
    rw [processEvents_args_accumulate jl jd ct s id p fragments hg]
    have h1 : processEvents jl jd ct s
        [Event.toolCallArgs id (String.join fragments), Event.toolCallEnd id]
        = processEvent jl jd ct
            (processEvent jl jd ct s (Event.toolCallArgs id (String.join fragments)))
            (Event.toolCallEnd id) := rfl
    rw [h1]
    have h2 : processEvent jl jd ct s (Event.toolCallArgs id (String.join fragments))
        = { s with
            pending := dictSet s.pending id ⟨p.toolCallId, p.toolName, p.argsChunks ++ [String.join fragments]⟩ } := by
      simp [processEvent, hg]
    rw [h2]
    have hq : dictGet (dictSet s.pending id
        (⟨p.toolCallId, p.toolName, p.argsChunks ++ fragments⟩ : PendingToolCall)) id
        = some ⟨p.toolCallId, p.toolName, p.argsChunks ++ fragments⟩ :=
      dictGet_dictSet_self _ _ _
    have hq' : dictGet (dictSet s.pending id
        (⟨p.toolCallId, p.toolName, p.argsChunks ++ [String.join fragments]⟩ : PendingToolCall)) id
        = some ⟨p.toolCallId, p.toolName, p.argsChunks ++ [String.join fragments]⟩ :=
      dictGet_dictSet_self _ _ _
    have hargs : PendingToolCall.getArgs jl
        ⟨p.toolCallId, p.toolName, p.argsChunks ++ fragments⟩
        = PendingToolCall.getArgs jl
          ⟨p.toolCallId, p.toolName, p.argsChunks ++ [String.join fragments]⟩ := by
      unfold PendingToolCall.getArgs
      have : String.join (p.argsChunks ++ fragments)
          = String.join (p.argsChunks ++ [String.join fragments]) := by
        rw [strJoin_append, strJoin_append, strJoin_singleton]
      rw [this]
    simp only [processEvent, hq, hq', hargs, dictRemove_dictSet]

/-- Witness for C7: a two-fragment payload and its one-fragment join
produce identical final states from a freshly started call. -/
theorem c7_fragmentation_witness :
    processEvents wJsonLoads wJsonDumps wCallTool wStateEmpty
        ([ "nu", "ll" ].map (Event.toolCallArgs "tc-9")
          ++ [Event.toolCallEnd "tc-9"])
      = processEvents wJsonLoads wJsonDumps wCallTool wStateEmpty
        [Event.toolCallArgs "tc-9" (String.join ["nu", "ll"]),
         Event.toolCallEnd "tc-9"] :=
  c7_fragmentation_invariance wJsonLoads wJsonDumps wCallTool
    wStateEmpty "tc-9" ["nu", "ll"]

/-- Claim C8: every tool-call-end for a tracked call removes its entry
from the pending tracker and still dispatches the tool, whatever the
accumulated argument text; and when the joined fragments do not parse as
JSON — including the zero-fragment empty join — the dispatched argument
mapping is the empty one, instead of the turn failing. -/
theorem c8_resolve_removes_and_empty_args (jl : String → Option Json)
    (jd : Json → String) (ct : String → Json → BackendOutcome)
    (s : ProcState) (id : String) (p : PendingToolCall)
    (hnd : noDupKeys s.pending) (hg : dictGet s.pending id = some p) :
    dictGet (processEvent jl jd ct s (Event.toolCallEnd id)).pending id = none ∧
    (processEvent jl jd ct s (Event.toolCallEnd id)).toolResults
      = s.toolResults
        ++ [executeTool ct jd p.toolCallId p.toolName (p.getArgs jl)] ∧
    (String.join p.argsChunks = "" ∨ jl (String.join p.argsChunks) = none →
      p.getArgs jl = Json.obj []) := by
  refine ⟨?_, by simp [processEvent, hg], ?_⟩
  · have hp : (processEvent jl jd ct s (Event.toolCallEnd id)).pending
        = dictRemove s.pending id := by
      simp [processEvent, hg]
    rw [hp]
    exact dictGet_dictRemove_self _ _ hnd
  · intro hbad
    unfold PendingToolCall.getArgs
    rcases hbad with hb | hb
    · simp [hb]
    · by_cases he : String.join p.argsChunks = ""
      · simp [he]
      · simp [he, hb]

/-- Witness for C8 on a tracked call whose accumulated argument text is
not valid JSON. -/
theorem c8_resolve_witness :
    dictGet (processEvent wJsonLoads wJsonDumps wCallTool wStateBadArgs
        (Event.toolCallEnd "tc-1")).pending "tc-1" = none ∧
    (processEvent wJsonLoads wJsonDumps wCallTool wStateBadArgs
        (Event.toolCallEnd "tc-1")).toolResults
      = [executeTool wCallTool wJsonDumps "tc-1" "SomeTool" (Json.obj [])] := by
  have h := c8_resolve_removes_and_empty_args wJsonLoads wJsonDumps wCallTool
    wStateBadArgs "tc-1" ⟨"tc-1", "SomeTool", ["notjson"]⟩
    (by simp [noDupKeys, wStateBadArgs]) rfl
  have hargs := h.2.2 (Or.inr rfl)
  exact ⟨h.1, by simpa [wStateBadArgs, hargs] using h.2.1⟩

/-- Claim C9: a tool-call-end of a tracked call dispatches it and appends
exactly one ToolCallResult to the result list and exactly one role=tool
message — content equal to the result's content, tool_call_id equal to the
call's id — to the history; and across any event sequence the appended
tool messages are exactly the produced results, in stream order. -/
theorem c9_tool_end_appends_result_and_message (jl : String → Option Json)
    (jd : Json → String) (ct : String → Json → BackendOutcome)
    (s : ProcState) (id : String) (p : PendingToolCall)
    (hg : dictGet s.pending id = some p) :
    ((processEvent jl jd ct s (Event.toolCallEnd id)).toolResults
        = s.toolResults
          ++ [executeTool ct jd p.toolCallId p.toolName (p.getArgs jl)] ∧
      (processEvent jl jd ct s (Event.toolCallEnd id)).messages
        = s.messages
          ++ [toolMsgOf (executeTool ct jd p.toolCallId p.toolName (p.getArgs jl))] ∧
      (executeTool ct jd p.toolCallId p.toolName (p.getArgs jl)).toolCallId
        = p.toolCallId) ∧
    ∀ (evs : List Event) (s₀ : ProcState), ∃ ts,
      (processEvents jl jd ct s₀ evs).toolResults = s₀.toolResults ++ ts ∧
      (processEvents jl jd ct s₀ evs).messages
        = s₀.messages ++ ts.map toolMsgOf := by
  refine ⟨⟨?_, ?_, executeTool_toolCallId ct jd _ _ _⟩, ?_⟩
  · simp [processEvent, hg]
  · simp [processEvent, hg]
  · exact fun evs s₀ => processEvents_results_messages jl jd ct evs s₀

/-- Witness for C9 on a tracked call. -/
theorem c9_tool_end_witness :
    (processEvent wJsonLoads wJsonDumps wCallTool wStateBadArgs
        (Event.toolCallEnd "tc-1")).messages
      = [toolMsgOf (executeTool wCallTool wJsonDumps "tc-1" "SomeTool"
          (PendingToolCall.getArgs wJsonLoads ⟨"tc-1", "SomeTool", ["notjson"]⟩))] := by
  have h := (c9_tool_end_appends_result_and_message wJsonLoads wJsonDumps
    wCallTool wStateBadArgs "tc-1" ⟨"tc-1", "SomeTool", ["notjson"]⟩ rfl).1.2.1
  simpa [wStateBadArgs] using h

/-- Claim C10: run never mutates the caller's message list object: it
copies the list, appends tool-result messages only to the copy, and
returns the copy, so after run the caller's list still holds exactly its
original elements while the result's messages are the original elements
followed by the appended tool messages. -/
theorem c10_run_preserves_caller_messages (jl : String → Option Json)
    (jd : Json → String) (ct : String → Json → BackendOutcome)
    (fetch : List Msg → List Event) (h : Heap) (r : Nat)
    (hr : r < h.cells.length) :
    (runHeap jl jd ct fetch h r).1.read r = h.read r ∧
    ∃ ts, (runHeap jl jd ct fetch h r).2.messages
        = h.read r ++ ts.map toolMsgOf ∧
      (runHeap jl jd ct fetch h r).2.toolResults = ts := by
  have hne : h.cells.length ≠ r := Nat.ne_of_gt hr
  constructor
  · show Heap.read ⟨(h.cells ++ [h.read r]).set h.cells.length _⟩ r = h.read r
    unfold Heap.read
    rw [List.getElem?_set_ne hne, List.getElem?_append_left hr]
  · obtain ⟨ts, hts1, hts2⟩ := processEvents_results_messages jl jd ct
      (fetch (h.read r))
      { responseChunks := [], toolResults := []
        messages := h.read r, pending := [] }
    refine ⟨ts, ?_, ?_⟩
    · show Heap.read ⟨(h.cells ++ [h.read r]).set h.cells.length _⟩ h.cells.length
          = h.read r ++ ts.map toolMsgOf
      unfold Heap.read
      rw [List.getElem?_set_eq_of_lt]
      · simpa using hts2
      · simp
    · simpa using hts1

/-- Witness for C10 on a one-cell heap and a pure text stream. -/
theorem c10_run_preserves_witness :
    (runHeap wJsonLoads wJsonDumps wCallTool
        (fun _ => [Event.textMessageContent "m1" "Hello"]) wHeap 0).1.read 0
      = wHeap.read 0 :=
  (c10_run_preserves_caller_messages wJsonLoads wJsonDumps wCallTool
    (fun _ => [Event.textMessageContent "m1" "Hello"]) wHeap 0 (by decide)).1

end AguiAgent
